import Mathlib

/-!
Shallow embedding of `src/restaurant_case_3rd_ed.py`, a small restaurant
ordering system: a menu-item class hierarchy, orders of (item, quantity)
pairs with a conditional beverage discount, payment methods, a FIFO order
queue, and a category-keyed menu catalog.

Python floats are modelled as rationals (`ℚ`), Python ints as `ℤ`/`ℕ`,
Python strings as `String` (the card number, whose characters are sliced,
as `List Char`), raised exceptions as `Except String`, and the mutable
object state as explicit state passing.
-/

namespace Restaurant

/-- Tags distinguishing the four Python classes of the `MenuItem`
hierarchy: `MenuItem` itself (`base`), `Beverage`, `Appetizer` and
`Maincourse`.  `isinstance(x, C)` for a concrete leaf class `C` becomes a
constructor test. -/
inductive MenuItem where
  /-- a plain `MenuItem(name, price)` -/
  | base (name : String) (price : ℚ)
  /-- a `Beverage(name, price, size)` -/
  | beverage (name : String) (price : ℚ) (size : String)
  /-- an `Appetizer(name, price, portion_size)` -/
  | appetizer (name : String) (price : ℚ) (portion_size : String)
  /-- a `Maincourse(name, price)` -/
  | maincourse (name : String) (price : ℚ)
deriving DecidableEq, Repr

namespace MenuItem

/-- The stored `_price` attribute (shared by all variants). -/
def price : MenuItem → ℚ
  | .base _ p => p
  | .beverage _ p _ => p
  | .appetizer _ p _ => p
  | .maincourse _ p => p

/-- The stored `_name` attribute (shared by all variants). -/
def name : MenuItem → String
  | .base n _ => n
  | .beverage n _ _ => n
  | .appetizer n _ _ => n
  | .maincourse n _ => n

/-- Python `isinstance(item, Beverage)`. -/
def isBeverage : MenuItem → Bool
  | .beverage _ _ _ => true
  | _ => false

/-- Python `isinstance(item, Maincourse)`. -/
def isMaincourse : MenuItem → Bool
  | .maincourse _ _ => true
  | _ => false

/-- Replace the `_price` attribute, keeping the item's class and other
attributes (the unconditional assignment `self._price = price`). -/
def withPrice : MenuItem → ℚ → MenuItem
  | .base n _, p => .base n p
  | .beverage n _ s, p => .beverage n p s
  | .appetizer n _ s, p => .appetizer n p s
  | .maincourse n _, p => .maincourse n p

/-- `MenuItem.set_price`: raises `ValueError("Price cannot be negative.")`
when `price < 0`, otherwise stores the new price.  An `Except.error`
result carries no successor state: the object is left unchanged. -/
def set_price (item : MenuItem) (price : ℚ) : Except String MenuItem :=
  if price < 0 then Except.error "Price cannot be negative."
  else Except.ok (item.withPrice price)

/-- `MenuItem.total_price(quantity)`: returns `self._price * quantity`,
with no validation of the quantity. -/
def total_price (item : MenuItem) (quantity : ℤ) : ℚ :=
  item.price * (quantity : ℚ)

end MenuItem

/-- An `Order`: the `_order_items` list of `(item, quantity)` pairs. -/
structure Order where
  order_items : List (MenuItem × ℤ)
deriving DecidableEq, Repr

namespace Order

/-- `Order.__init__`: starts with an empty `_order_items` list. -/
def new : Order := ⟨[]⟩

/-- `Order.add_menu_item(item, quantity)`: unconditionally appends
`(item, quantity)` to `_order_items`; the quantity is not validated. -/
def add_menu_item (o : Order) (item : MenuItem) (quantity : ℤ) : Order :=
  ⟨o.order_items ++ [(item, quantity)]⟩

/-- The scan `any(isinstance(item, Maincourse) for item, _ in self._order_items)`
performed at the start of `calculate_total_price`. -/
def has_maincourse (o : Order) : Bool :=
  o.order_items.any fun p => p.1.isMaincourse

/-- `Order.calculate_total_price`: starting from `total = 0`, adds
`item.total_price(quantity) * 0.9` for each beverage entry when the order
contains a main course, and `item.total_price(quantity)` otherwise. -/
def calculate_total_price (o : Order) : ℚ :=
  o.order_items.foldl
    (fun total p =>
      if o.has_maincourse && p.1.isBeverage
      then total + p.1.total_price p.2 * (9 / 10)
      else total + p.1.total_price p.2)
    0

end Order

/-- A settlement outcome of a `pay(amount)` call, as reported by the
`print` in each concrete `pay` implementation. -/
inductive PayResult where
  /-- `CardPayment.pay`: "Paying $amount with card ending in tail",
  where `tail` is `card_number[-4:]`. -/
  | cardPaid (amount : ℚ) (tail : List Char)
  /-- `CashPayment.pay`, sufficient cash: "Paid $amount in cash. Change: $change". -/
  | cashPaid (amount : ℚ) (change : ℚ)
  /-- `CashPayment.pay`, insufficient cash: "Insufficient funds. Need $shortfall more." -/
  | cashInsufficient (shortfall : ℚ)
deriving DecidableEq, Repr

/-- A payment object: the abstract `Payment` base class, or one of the two
concrete subclasses with their constructor attributes. -/
inductive Payment where
  /-- a bare `Payment()` instance (no concrete variant) -/
  | base
  /-- `CardPayment(card_number, cvv)` -/
  | card (card_number : List Char) (cvv : ℤ)
  /-- `CashPayment(cash_given)` -/
  | cash (cash_given : ℚ)
deriving DecidableEq, Repr

namespace Payment

/-- Dynamic dispatch of `pay(amount)`:
`Payment.pay` raises `NotImplementedError`;
`CardPayment.pay` reports the amount and `card_number[-4:]` (the Python
negative slice is `drop (length - 4)` with truncating `ℕ` subtraction);
`CashPayment.pay` reports change `cash_given - amount` when
`cash_given >= amount` and the shortfall `amount - cash_given` otherwise. -/
def pay (p : Payment) (amount : ℚ) : Except String PayResult :=
  match p with
  | .base => Except.error "Subclasses must implement the pay() method."
  | .card n _ => Except.ok (.cardPaid amount (n.drop (n.length - 4)))
  | .cash c =>
      if c ≥ amount then Except.ok (.cashPaid amount (c - amount))
      else Except.ok (.cashInsufficient (amount - c))

end Payment

/-- An `OrderManager`: the `queue.Queue` of orders, modelled as the list
of queued orders, oldest first. -/
structure OrderManager where
  orders : List Order
deriving DecidableEq, Repr

namespace OrderManager

/-- `OrderManager.__init__`: an empty queue. -/
def new : OrderManager := ⟨[]⟩

/-- `OrderManager.add_order`: `Queue.put`, appending at the tail. -/
def add_order (m : OrderManager) (o : Order) : OrderManager :=
  ⟨m.orders ++ [o]⟩

/-- `OrderManager.process_order`: returns `None` when the queue is empty,
otherwise removes and returns the head (`Queue.get`). -/
def process_order (m : OrderManager) : Option Order × OrderManager :=
  match m.orders with
  | [] => (none, m)
  | o :: rest => (some o, ⟨rest⟩)

/-- `OrderManager.__len__`: `Queue.qsize`. -/
def size (m : OrderManager) : ℕ := m.orders.length

end OrderManager

/-- Enqueue a list of orders in sequence. -/
def enqueueAll (m : OrderManager) (es : List Order) : OrderManager :=
  es.foldl OrderManager.add_order m

/-- Dequeue `n` times in sequence, collecting the `n` results. -/
def dequeueN (m : OrderManager) : ℕ → List (Option Order) × OrderManager
  | 0 => ([], m)
  | n + 1 =>
      let r := m.process_order
      let rest := dequeueN r.2 n
      (r.1 :: rest.1, rest.2)

/-- A `{"name": ..., "price": ...}` record of the menu catalog. -/
structure MenuRecord where
  name : String
  price : ℚ
deriving DecidableEq, Repr

/-- The `Menu` catalog: the `menu_items` dict, a mapping from category
name to a list of records, modelled as an association list (Python dict
keys are unique; lookups take the first matching key). -/
structure Menu where
  menu_items : List (String × List MenuRecord)
deriving DecidableEq, Repr

namespace Menu

/-- Dict read access `self.menu_items[category]` (and the membership test
`category in self.menu_items` via `isSome`). -/
def lookup (m : Menu) (category : String) : Option (List MenuRecord) :=
  (m.menu_items.find? fun p => p.1 == category).map Prod.snd

/-- `Menu.delete_item(category, name)`: when the category key exists,
replaces its record list by the records whose name differs from `name`
and returns `True`; otherwise leaves the catalog unchanged and returns
`False`. -/
def delete_item (m : Menu) (category name : String) : Menu × Bool :=
  if (m.menu_items.find? fun p => p.1 == category).isSome then
    (⟨m.menu_items.map fun p =>
        if p.1 == category then (p.1, p.2.filter fun r => r.name != name)
        else p⟩,
     true)
  else (m, false)

end Menu

/-! ## Helper lemmas -/

theorem MenuItem.price_withPrice (item : MenuItem) (p : ℚ) :
    (item.withPrice p).price = p := by
  cases item <;> rfl

/-! ## Claims -/

/-- C9: a freshly created `Order` has no entries, and
`calculate_total_price()` on it returns `0`. -/
theorem empty_order_total_zero :
    Order.new.order_items = [] ∧ Order.new.calculate_total_price = 0 :=
  ⟨rfl, rfl⟩

/-- C5 counterexample: `add_menu_item` with quantity `0` (non-positive)
does not raise and does change the entry sequence, refuting the claim
that non-positive quantities are rejected leaving the order unchanged. -/
theorem add_menu_item_zero_qty_appends :
    (Order.new.add_menu_item (MenuItem.base "Coke" (5 / 2)) 0).order_items ≠
      Order.new.order_items := by
  decide

/-- C5 (amended): for every quantity, positive, zero or negative,
`add_menu_item` performs no validation: it returns normally and appends
the `(item, quantity)` entry. -/
theorem add_menu_item_always_appends (o : Order) (item : MenuItem) (q : ℤ) :
    (o.add_menu_item item q).order_items = o.order_items ++ [(item, q)] :=
  rfl

/-- C6 counterexample: a zero-priced item (price `0` is non-negative)
with quantity `-1` yields total `0`, which is not negative, refuting the
claim that every negative quantity produces a negative result. -/
theorem total_price_zero_price_neg_qty :
    (MenuItem.base "Water" 0).total_price (-1) = 0 ∧
      ¬ (MenuItem.base "Water" 0).total_price (-1) < 0 := by
  norm_num [MenuItem.total_price, MenuItem.price]

/-- C6 (amended): for every item with non-negative price,
`total_price(q)` returns `price * q` with no validation of the quantity:
a zero quantity yields `0`, and a negative quantity yields a non-positive
total, strictly negative whenever the price is positive. -/
theorem total_price_no_validation (item : MenuItem) (q : ℤ)
    (h : 0 ≤ item.price) :
    item.total_price q = item.price * (q : ℚ) ∧
      (q = 0 → item.total_price q = 0) ∧
      (q < 0 → item.total_price q ≤ 0) ∧
      (q < 0 → 0 < item.price → item.total_price q < 0) := by
  refine ⟨rfl, ?_, ?_, ?_⟩
  · rintro rfl
    simp [MenuItem.total_price]
  · intro hq
    have hq0 : (q : ℚ) ≤ 0 := by exact_mod_cast hq.le
    calc item.total_price q = item.price * (q : ℚ) := rfl
      _ ≤ 0 := mul_nonpos_iff.mpr (Or.inl ⟨h, hq0⟩)
  · intro hq hp
    have hq0 : (q : ℚ) < 0 := by exact_mod_cast hq
    calc item.total_price q = item.price * (q : ℚ) := rfl
      _ < 0 := mul_neg_of_pos_of_neg hp hq0

/-- C6 witness: a $2 item with quantity `-3` has a negative total. -/
theorem total_price_no_validation_check :
    (MenuItem.base "Tea" 2).total_price (-3) < 0 := by
  have h := total_price_no_validation (MenuItem.base "Tea" 2) (-3)
    (by norm_num [MenuItem.price])
  exact h.2.2.2 (by norm_num) (by norm_num [MenuItem.price])

/-- C4: `set_price` with a negative value fails with the negative-price
error (an `Except.error` carries no successor state: the stored price is
unchanged), and every successful `set_price` from a non-negative price
yields a non-negative price, preserving the invariant `price ≥ 0`. -/
theorem set_price_rejects_negative (item : MenuItem) (p : ℚ)
    (h0 : 0 ≤ item.price) :
    (p < 0 → item.set_price p = Except.error "Price cannot be negative.") ∧
      ∀ item', item.set_price p = Except.ok item' → 0 ≤ item'.price := by
  constructor
  · intro hp
    simp [MenuItem.set_price, hp]
  · intro item' hok
    by_cases hp : p < 0
    · simp [MenuItem.set_price, hp] at hok
    · simp [MenuItem.set_price, hp] at hok
      rw [← hok, MenuItem.price_withPrice]
      exact not_lt.mp hp

/-- C4 witness: setting price `-1` on a $2.50 item fails. -/
theorem set_price_rejects_negative_check :
    (MenuItem.base "Coke" (5 / 2)).set_price (-1) =
      Except.error "Price cannot be negative." :=
  (set_price_rejects_negative (MenuItem.base "Coke" (5 / 2)) (-1)
    (by norm_num [MenuItem.price])).1 (by norm_num)

/-- C3: `CashPayment(cash).pay(amount)` never raises; with
`cash ≥ amount` it reports a paid settlement with change `cash - amount`,
otherwise an insufficient settlement with shortfall `amount - cash`. -/
theorem cash_payment_settles (cash amount : ℚ) :
    (∃ r, (Payment.cash cash).pay amount = Except.ok r) ∧
      (cash ≥ amount →
        (Payment.cash cash).pay amount =
          Except.ok (PayResult.cashPaid amount (cash - amount))) ∧
      (cash < amount →
        (Payment.cash cash).pay amount =
          Except.ok (PayResult.cashInsufficient (amount - cash))) := by
  by_cases h : cash ≥ amount
  · refine ⟨⟨PayResult.cashPaid amount (cash - amount), ?_⟩, fun _ => ?_,
      fun hlt => absurd h (not_le.mpr hlt)⟩ <;> simp [Payment.pay, h]
  · refine ⟨⟨PayResult.cashInsufficient (amount - cash), ?_⟩,
      fun hge => absurd hge h, fun _ => ?_⟩ <;> simp [Payment.pay, h]

/-- C3 witness: `CashPayment(20).pay(21.5)` reports shortfall `1.5`. -/
theorem cash_payment_settles_check :
    (Payment.cash 20).pay (43 / 2) =
      Except.ok (PayResult.cashInsufficient (3 / 2)) := by
  have h := (cash_payment_settles 20 (43 / 2)).2.2 (by norm_num)
  have e : (43 / 2 : ℚ) - 20 = 3 / 2 := by norm_num
  rw [e] at h
  exact h

/-- C8: `pay(amount)` results in the not-implemented error exactly when
invoked on the abstract `Payment` base; the concrete card and cash
variants never produce it. -/
theorem abstract_payment_only_error (p : Payment) (amount : ℚ) :
    (∃ e, p.pay amount = Except.error e) ↔ p = Payment.base := by
  cases p with
  | base => exact ⟨fun _ => rfl, fun _ => ⟨_, rfl⟩⟩
  | card n cvv =>
      constructor
      · rintro ⟨e, he⟩
        simp [Payment.pay] at he
      · intro h
        simp at h
  | cash c =>
      constructor
      · rintro ⟨e, he⟩
        by_cases hc : c ≥ amount <;> simp [Payment.pay, hc] at he
      · intro h
        simp at h

/-- C8 witness: the bare abstract `Payment` fails on `pay(1)`. -/
theorem abstract_payment_only_error_check :
    ∃ e, Payment.base.pay 1 = Except.error e :=
  (abstract_payment_only_error Payment.base 1).mpr rfl

/-- C10: `CardPayment.pay` always succeeds, and the reported masked tail
`card_number[-4:]` is a suffix of length four when the card number has at
least four characters, and the entire card number otherwise. -/
theorem card_payment_masks (n : List Char) (cvv : ℤ) (amount : ℚ) :
    (Payment.card n cvv).pay amount =
        Except.ok (PayResult.cardPaid amount (n.drop (n.length - 4))) ∧
      (n.length < 4 → n.drop (n.length - 4) = n) ∧
      (4 ≤ n.length →
        (n.drop (n.length - 4)).length = 4 ∧
          n.take (n.length - 4) ++ n.drop (n.length - 4) = n) := by
  refine ⟨rfl, ?_, fun h4 => ⟨?_, List.take_append_drop _ _⟩⟩
  · intro h
    have h0 : n.length - 4 = 0 := Nat.sub_eq_zero_of_le h.le
    rw [h0, List.drop_zero]
  · rw [List.length_drop]
    exact Nat.sub_sub_self h4

/-- C10 witness: a two-character card number is reported whole, and a
five-character card number is masked to its last four characters. -/
theorem card_payment_masks_check :
    ((['1', '2'] : List Char).drop (['1', '2'].length - 4) = ['1', '2']) ∧
      ((['1', '2', '3', '4', '5'] : List Char).drop
          (['1', '2', '3', '4', '5'].length - 4)).length = 4 :=
  ⟨(card_payment_masks ['1', '2'] 0 0).2.1 (by decide),
    ((card_payment_masks ['1', '2', '3', '4', '5'] 0 0).2.2 (by decide)).1⟩

theorem foldl_add_eq_sum (f : MenuItem × ℤ → ℚ) (l : List (MenuItem × ℤ))
    (init : ℚ) :
    l.foldl (fun t p => t + f p) init = init + (l.map f).sum := by
  induction l generalizing init with
  | nil => simp
  | cons a l ih => simp [ih, add_assoc]

/-- C1: the computed order total is the sum, over entries, of
`price * quantity`, with the factor `0.9` applied to a beverage entry's
subtotal exactly when some main-course entry exists in the order;
with no main-course entry, every entry contributes undiscounted. -/
theorem calculate_total_price_spec (o : Order) :
    o.calculate_total_price =
      (o.order_items.map fun p =>
        if (∃ q ∈ o.order_items, q.1.isMaincourse = true) ∧
            p.1.isBeverage = true
        then p.1.price * (p.2 : ℚ) * (9 / 10)
        else p.1.price * (p.2 : ℚ)).sum := by
  unfold Order.calculate_total_price
  have hfun : (fun (total : ℚ) (p : MenuItem × ℤ) =>
        if o.has_maincourse && p.1.isBeverage
        then total + p.1.total_price p.2 * (9 / 10)
        else total + p.1.total_price p.2) =
      fun total p => total +
        (if o.has_maincourse && p.1.isBeverage
         then p.1.total_price p.2 * (9 / 10)
         else p.1.total_price p.2) := by
    funext t p
    by_cases hc : (o.has_maincourse && p.1.isBeverage) = true <;> simp [hc]
  rw [hfun, foldl_add_eq_sum, zero_add]
  congr 1
  apply List.map_congr_left
  intro p hp
  have hm : (o.has_maincourse = true) ↔
      ∃ q ∈ o.order_items, q.1.isMaincourse = true := by
    simp [Order.has_maincourse, List.any_eq_true]
  have hcond : (o.has_maincourse && p.1.isBeverage) = true ↔
      ((∃ q ∈ o.order_items, q.1.isMaincourse = true) ∧
        p.1.isBeverage = true) := by
    rw [Bool.and_eq_true, hm]
  by_cases hc : (o.has_maincourse && p.1.isBeverage) = true
  · rw [if_pos hc, if_pos (hcond.mp hc)]
    rfl
  · rw [if_neg hc, if_neg (fun hh => hc (hcond.mpr hh))]
    rfl

theorem enqueueAll_mk (l es : List Order) :
    enqueueAll ⟨l⟩ es = ⟨l ++ es⟩ := by
  induction es generalizing l with
  | nil => simp [enqueueAll]
  | cons e es ih =>
      show enqueueAll ⟨l ++ [e]⟩ es = _
      rw [ih]
      simp

theorem dequeueN_mk (l : List Order) (n : ℕ) :
    dequeueN ⟨l⟩ n =
      ((l.map some).take n ++ List.replicate (n - l.length) none,
        ⟨l.drop n⟩) := by
  induction n generalizing l with
  | zero => simp [dequeueN]
  | succ n ih =>
      cases l with
      | nil =>
          simp [dequeueN, OrderManager.process_order, ih [],
            List.replicate_succ]
      | cons o rest =>
          simp [dequeueN, OrderManager.process_order, ih rest,
            Nat.succ_sub_succ]

/-- C2: after enqueuing the orders `es` into a fresh `OrderManager`,
dequeuing `es.length + extra` times returns exactly `es` in FIFO order
followed by `extra` empty (`none`) results, and after `j ≤ es.length`
dequeues the size equals `es.length - j`. -/
theorem order_manager_fifo (es : List Order) (extra j : ℕ)
    (hj : j ≤ es.length) :
    (dequeueN (enqueueAll OrderManager.new es) (es.length + extra)).1 =
        es.map some ++ List.replicate extra none ∧
      (dequeueN (enqueueAll OrderManager.new es) j).2.size =
        es.length - j := by
  have hnew : OrderManager.new = (⟨[]⟩ : OrderManager) := rfl
  rw [hnew, enqueueAll_mk, List.nil_append]
  constructor
  · rw [dequeueN_mk]
    have ht : (es.map some).take (es.length + extra) = es.map some :=
      List.take_of_length_le (by simp)
    have hr : es.length + extra - es.length = extra := by omega
    rw [ht, hr]
  · rw [dequeueN_mk]
    simp [OrderManager.size]

/-- C2 witness: two concrete orders dequeue in FIFO order with a trailing
empty result, and after one dequeue the size is `1`. -/
theorem order_manager_fifo_check :
    (dequeueN (enqueueAll OrderManager.new
          [Order.new, Order.new.add_menu_item (MenuItem.base "Coke" 2) 2])
        ([Order.new,
            Order.new.add_menu_item (MenuItem.base "Coke" 2) 2].length + 1)).1 =
      [Order.new,
        Order.new.add_menu_item (MenuItem.base "Coke" 2) 2].map some ++
        List.replicate 1 none ∧
      (dequeueN (enqueueAll OrderManager.new
          [Order.new, Order.new.add_menu_item (MenuItem.base "Coke" 2) 2])
        1).2.size =
      [Order.new, Order.new.add_menu_item (MenuItem.base "Coke" 2) 2].length
        - 1 :=
  order_manager_fifo
    [Order.new, Order.new.add_menu_item (MenuItem.base "Coke" 2) 2] 1 1
    (by simp)

theorem find_map_key (f : String × List MenuRecord → String × List MenuRecord)
    (hf : ∀ p, (f p).1 = p.1) (c : String)
    (l : List (String × List MenuRecord)) :
    (l.map f).find? (fun p => p.1 == c) =
      (l.find? fun p => p.1 == c).map f := by
  induction l with
  | nil => rfl
  | cons a l ih =>
      by_cases h : (a.1 == c) = true
      · simp [List.find?, hf, h]
      · have hb : (a.1 == c) = false := by
          simpa using h
        simp [List.find?, hf, hb, ih]

/-- The sample catalog of the demo script, used as a concrete witness. -/
def sampleMenu : Menu :=
  ⟨[("Beverage", [⟨"Coke", 2⟩, ⟨"Coke", 3⟩, ⟨"Tea", 2⟩]),
    ("Appetizer", [⟨"Spring Rolls", 5⟩])]⟩

/-- C7: `delete_item(category, name)` returns `True` exactly when the
category exists in the catalog (whether or not any record matches),
removes every record with the given name from that category, and leaves
every other category unchanged. -/
theorem delete_item_spec (m : Menu) (category name : String) :
    ((m.delete_item category name).2 = true ↔
        (m.lookup category).isSome = true) ∧
      (∀ c, c ≠ category →
        (m.delete_item category name).1.lookup c = m.lookup c) ∧
      (∀ l, m.lookup category = some l →
        (m.delete_item category name).1.lookup category =
          some (l.filter fun r => r.name != name)) := by
  have hf : ∀ p : String × List MenuRecord,
      ((if p.1 == category
        then (p.1, p.2.filter fun r => r.name != name) else p) : _).1 =
        p.1 := by
    intro p
    by_cases h : p.1 == category <;> simp [h]
  by_cases hc : (m.menu_items.find? fun p => p.1 == category).isSome
  · refine ⟨?_, ?_, ?_⟩
    · simp [Menu.delete_item, Menu.lookup, hc]
    · intro c hne
      simp only [Menu.delete_item, hc, if_pos]
      simp only [Menu.lookup, find_map_key _ hf]
      cases hfind : m.menu_items.find? fun p => p.1 == c with
      | none => rfl
      | some p0 =>
          have hpc : p0.1 = c := by simpa using List.find?_some hfind
          have hne' : p0.1 ≠ category := by
            rw [hpc]
            exact hne
          simp [hne']
    · intro l hl
      rcases Option.isSome_iff_exists.mp hc with ⟨p0, hp0⟩
      have hpc : p0.1 = category := by simpa using List.find?_some hp0
      have hl2 : p0.2 = l := by
        simp [Menu.lookup, hp0] at hl
        exact hl
      simp only [Menu.delete_item, hc, if_pos]
      simp only [Menu.lookup, find_map_key _ hf, hp0, Option.map_map,
        Option.map_some]
      simp [hpc, hl2]
  · have hdel : m.delete_item category name = (m, false) := by
      simp [Menu.delete_item, hc]
    refine ⟨?_, ?_, ?_⟩
    · simp [hdel, Menu.lookup, Option.not_isSome_iff_eq_none.mp hc]
    · intro c _
      rw [hdel]
    · intro l hl
      exfalso
      simp [Menu.lookup, Option.not_isSome_iff_eq_none.mp hc] at hl

/-- C7 witness: deleting `Coke` from `Beverage` in the sample catalog
returns `True`, removes both `Coke` records, and leaves the `Appetizer`
category unchanged. -/
theorem delete_item_spec_check :
    ((sampleMenu.delete_item "Beverage" "Coke").2 = true) ∧
      ((sampleMenu.delete_item "Beverage" "Coke").1.lookup "Appetizer" =
        sampleMenu.lookup "Appetizer") ∧
      ((sampleMenu.delete_item "Beverage" "Coke").1.lookup "Beverage" =
        some ([⟨"Coke", 2⟩, ⟨"Coke", 3⟩, ⟨"Tea", 2⟩].filter
          fun r => r.name != "Coke")) := by
  have h := delete_item_spec sampleMenu "Beverage" "Coke"
  refine ⟨h.1.mpr (by simp [sampleMenu, Menu.lookup, List.find?]),
    h.2.1 "Appetizer" (by simp),
    h.2.2 [⟨"Coke", 2⟩, ⟨"Coke", 3⟩, ⟨"Tea", 2⟩]
      (by simp [sampleMenu, Menu.lookup, List.find?])⟩

end Restaurant
